import Mathlib

/-!
Shallow embedding of `src/tst/Transformer.py` (class `Transformer`).

The file models the top-level composition only, as the source does: the
`Encoder` and `Decoder` collaborator classes and the two positional-encoding
generator functions are imported by the source from modules that are not part
of this fragment, so they are kept opaque here — they appear as parameters
(`mkEncoder`, `mkDecoder`, `genOriginalPE`, `genRegularPE`) of the
constructor, and constructed layers are plain functions on tensors, matching
the black-box shape contract the source relies on.

Tensors are nested lists over an ordered field `R` (instantiated at `ℚ` for
executable witnesses and at `ℝ` for the analytic sigmoid claim).  Python
scalar values that the constructor merely stores or forwards (`dropout`,
`chunk_mode`, `pe`) are modelled by the small dynamic-value type `PyVal`.
-/

namespace Tst

/-- A Python value, as far as the `Transformer` constructor can observe one:
the constructor compares `pe` against string keys and `None`, and forwards
`dropout` / `chunk_mode` uninterpreted.  Floats are modelled by rationals. -/
inductive PyVal where
  | none : PyVal
  | bool : Bool → PyVal
  | int : ℤ → PyVal
  | float : ℚ → PyVal
  | str : String → PyVal
deriving DecidableEq, Repr

/-- Rendering of a `PyVal` inside an f-string, as `str()` would produce. -/
def PyVal.pyStr : PyVal → String
  | PyVal.none => "None"
  | PyVal.bool true => "True"
  | PyVal.bool false => "False"
  | PyVal.int n => toString n
  | PyVal.float a => toString a
  | PyVal.str s => s

/-- One-dimensional tensor: a vector of scalars. -/
abbrev Tensor1 (R : Type) := List R

/-- Two-dimensional tensor: a matrix, outer index first. -/
abbrev Tensor2 (R : Type) := List (List R)

/-- Three-dimensional tensor of shape (batch, time, features). -/
abbrev Tensor3 (R : Type) := List (List (List R))

variable {R : Type} [LinearOrderedField R]

/-- Dot product of two vectors (zip-with-multiply, then sum), the core of a
`torch.nn.Linear` output coordinate. -/
def dot (u w : Tensor1 R) : R := (List.zipWith (fun a b => a * b) u w).sum

/-- A `torch.nn.Linear(d_in, d_out)` module: a learned affine map, stored as
its weight matrix (one row per output coordinate) and bias vector. -/
structure LinearLayer (R : Type) where
  weight : Tensor2 R
  bias : Tensor1 R

/-- Apply a linear layer to one feature vector: `y_j = dot(weight_j, x) + bias_j`. -/
def LinearLayer.apply1 (l : LinearLayer R) (x : Tensor1 R) : Tensor1 R :=
  List.zipWith (fun row bj => dot row x + bj) l.weight l.bias

/-- Apply a linear layer to the trailing (feature) dimension of a 3-d tensor,
as `nn.Linear` does on a (batch, time, features) input. -/
def LinearLayer.apply3 (l : LinearLayer R) (t : Tensor3 R) : Tensor3 R :=
  t.map (fun mat => mat.map (fun row => l.apply1 row))

/-- Elementwise addition of a (time, d_model) matrix to a (time, d_model)
matrix: one batch element of `encoding.add_(self._PE)`. -/
def addPE2 (mat pe : Tensor2 R) : Tensor2 R :=
  List.zipWith (fun row p => List.zipWith (fun a b => a + b) row p) mat pe

/-- `encoding.add_(self._PE)`: the positional table is broadcast over the
batch dimension and added elementwise to the activation. -/
def addPE3 (t : Tensor3 R) (pe : Tensor2 R) : Tensor3 R :=
  t.map (fun mat => addPE2 mat pe)

/-- `torch.sigmoid x = 1 / (1 + exp (-x))`.  The exponential is abstracted as
a parameter `e` so the definition stays generic in the scalar field; the
claims about the real model instantiate `e := Real.exp`. -/
def sigmoid (e : R → R) (x : R) : R := 1 / (1 + e (-x))

/-- Elementwise `torch.sigmoid` over a 3-d tensor. -/
def sigmoidMap (e : R → R) (t : Tensor3 R) : Tensor3 R :=
  t.map (fun mat => mat.map (fun row => row.map (fun x => sigmoid e x)))

/-- The arguments `Encoder(d_model, q, v, h, k, dropout=dropout,
chunk_mode=chunk_mode)` and `Decoder(d_model, q, v, h, k, dropout=dropout,
chunk_mode=chunk_mode)` are called with in `Transformer.__init__`. -/
structure LayerArgs where
  d_model : ℕ
  q : ℕ
  v : ℕ
  h : ℕ
  k : ℕ
  dropout : PyVal
  chunk_mode : PyVal
deriving DecidableEq

/-- The state a constructed `Transformer` object holds: the two stacks of
layers (opaque callables), the embedding and output linear modules, and the
optional positional-encoding table `self._PE`. -/
structure Transformer (R : Type) where
  layers_encoding : List (Tensor3 R → Tensor3 R)
  layers_decoding : List (Tensor3 R → Tensor3 R → Tensor3 R)
  embedding : LinearLayer R
  linear : LinearLayer R
  PE : Option (Tensor2 R)

/-- The set of `pe` values `Transformer.__init__` accepts: the two dictionary
keys and `None`. -/
def peAccepted (pe : PyVal) : Prop :=
  pe = PyVal.str "original" ∨ pe = PyVal.str "regular" ∨ pe = PyVal.none

instance (pe : PyVal) : Decidable (peAccepted pe) := by
  unfold peAccepted
  infer_instance

/-- The default value of the constructor's `dropout` parameter
(`dropout: float = 0.3`). -/
def defaultDropout : PyVal := PyVal.float (3 / 10)

/-- The default value of the constructor's `chunk_mode` parameter
(`chunk_mode: bool = True`). -/
def defaultChunkMode : PyVal := PyVal.bool true

/-- The default value of the constructor's `pe` parameter
(`pe: str = None`). -/
def defaultPe : PyVal := PyVal.none

/-- `Transformer.__init__`.  The `Encoder`, `Decoder` and `nn.Linear`
constructors and the two PE generator functions live outside this fragment,
so they are taken as opaque parameters.  List comprehensions over `range(N)`
become maps over `List.range N`; the `pe` dispatch through the
`pe_functions` dictionary becomes the equality tests below, and an
unrecognized `pe` raises `NameError` (modelled as `Except.error` carrying the
message the f-string builds). -/
def Transformer.mk? (mkEncoder : LayerArgs → Tensor3 R → Tensor3 R)
    (mkDecoder : LayerArgs → Tensor3 R → Tensor3 R → Tensor3 R)
    (mkLinear : ℕ → ℕ → LinearLayer R)
    (genOriginalPE genRegularPE : ℕ → ℕ → Tensor2 R)
    (d_input d_model d_output q v h k N : ℕ)
    (dropout : PyVal := defaultDropout)
    (chunk_mode : PyVal := defaultChunkMode)
    (pe : PyVal := defaultPe) : Except String (Transformer R) :=
  let layers_encoding :=
    (List.range N).map (fun _ => mkEncoder ⟨d_model, q, v, h, k, dropout, chunk_mode⟩)
  let layers_decoding :=
    (List.range N).map (fun _ => mkDecoder ⟨d_model, q, v, h, k, dropout, chunk_mode⟩)
  let embedding := mkLinear d_input d_model
  let linear := mkLinear d_model d_output
  if pe = PyVal.str "original" then
    Except.ok ⟨layers_encoding, layers_decoding, embedding, linear, some (genOriginalPE k d_model)⟩
  else if pe = PyVal.str "regular" then
    Except.ok ⟨layers_encoding, layers_decoding, embedding, linear, some (genRegularPE k d_model)⟩
  else if pe = PyVal.none then
    Except.ok ⟨layers_encoding, layers_decoding, embedding, linear, Option.none⟩
  else
    Except.error ("PE \"" ++ pe.pyStr ++ "\" not understood. Must be one of original, regular or None.")

/-- `Transformer.forward`, line by line: embedding, conditional in-place PE
addition, the encoder loop, the second conditional PE addition, the decoder
loop over the fixed encoder memory, output projection, sigmoid. -/
def Transformer.forward (e : R → R) (self : Transformer R) (x : Tensor3 R) : Tensor3 R :=
  let encoding := self.embedding.apply3 x
  let encoding := match self.PE with
    | some pe => addPE3 encoding pe
    | Option.none => encoding
  let encoding := self.layers_encoding.foldl (fun acc layer => layer acc) encoding
  let encoding := match self.PE with
    | some pe => addPE3 encoding pe
    | Option.none => encoding
  let decoding := encoding
  let decoding := self.layers_decoding.foldl (fun dec layer => layer dec encoding) decoding
  let output := self.linear.apply3 decoding
  let output := sigmoidMap e output
  output

/-- Spec-side view of the encoder stack: the layers applied sequentially by
structural recursion (layer 1's output is layer 2's input, and so on). -/
def encoderStackRun : List (Tensor3 R → Tensor3 R) → Tensor3 R → Tensor3 R
  | [], t => t
  | layer :: rest, t => encoderStackRun rest (layer t)

/-- Spec-side view of the decoder stack: the layers applied sequentially by
structural recursion, every layer receiving the same fixed encoder memory
`mem` as its second argument. -/
def decoderStackRun :
    List (Tensor3 R → Tensor3 R → Tensor3 R) → Tensor3 R → Tensor3 R → Tensor3 R
  | [], d, _ => d
  | layer :: rest, d, mem => decoderStackRun rest (layer d mem) mem

/-- Spec-side view of the conditional positional-encoding addition: add the
table when one exists, otherwise pass the activation through. -/
def optAddPE : Option (Tensor2 R) → Tensor3 R → Tensor3 R
  | some pe, t => addPE3 t pe
  | Option.none, t => t

/-- `Transformer.forward` with both conditional positional-encoding addition
steps removed: embedding, encoder stack, decoder stack, output projection,
sigmoid, and nothing else. -/
def Transformer.forwardNoPE (e : R → R) (self : Transformer R) (x : Tensor3 R) : Tensor3 R :=
  let encoding := self.embedding.apply3 x
  let encoding := self.layers_encoding.foldl (fun acc layer => layer acc) encoding
  let decoding := encoding
  let decoding := self.layers_decoding.foldl (fun dec layer => layer dec encoding) decoding
  let output := self.linear.apply3 decoding
  let output := sigmoidMap e output
  output

/-- `Transformer.forward` with the object state threaded explicitly: each
statement of the body returns the (possibly updated) object alongside the
local it rebinds.  The two `add_` calls are in-place writes whose target is
the activation tensor bound by `encoding` — a tensor freshly created during
this invocation by `self._embedding(x)` (respectively by the encoder layers)
— so each rebinds that local and returns the object component untouched. -/
def Transformer.forwardSt (e : R → R) (self : Transformer R) (x : Tensor3 R) :
    Transformer R × Tensor3 R :=
  let model := self
  let encoding := model.embedding.apply3 x
  let (model, encoding) := match model.PE with
    | some pe => (model, addPE3 encoding pe)
    | Option.none => (model, encoding)
  let (model, encoding) :=
    (model, model.layers_encoding.foldl (fun acc layer => layer acc) encoding)
  let (model, encoding) := match model.PE with
    | some pe => (model, addPE3 encoding pe)
    | Option.none => (model, encoding)
  let decoding := encoding
  let (model, decoding) :=
    (model, model.layers_decoding.foldl (fun dec layer => layer dec encoding) decoding)
  let output := model.linear.apply3 decoding
  let output := sigmoidMap e output
  (model, output)

/-- `mat` is a matrix with `a` rows, each of length `b`. -/
def HasShape2 (mat : Tensor2 R) (a b : ℕ) : Prop :=
  mat.length = a ∧ ∀ row ∈ mat, row.length = b

instance (mat : Tensor2 R) (a b : ℕ) : Decidable (HasShape2 mat a b) := by
  unfold HasShape2
  infer_instance

/-- `t` is a 3-d tensor of shape `(a, b, c)`. -/
def HasShape3 (t : Tensor3 R) (a b c : ℕ) : Prop :=
  t.length = a ∧ ∀ mat ∈ t, HasShape2 mat b c

instance (t : Tensor3 R) (a b c : ℕ) : Decidable (HasShape3 t a b c) := by
  unfold HasShape3
  infer_instance

/-- A trivial encoder-layer factory (identity layers), used to instantiate
the opaque `Encoder` constructor in concrete evaluations. -/
def mkEncoderId : LayerArgs → Tensor3 ℚ → Tensor3 ℚ := fun _ t => t

/-- A trivial decoder-layer factory (first-projection layers), used to
instantiate the opaque `Decoder` constructor in concrete evaluations. -/
def mkDecoderId : LayerArgs → Tensor3 ℚ → Tensor3 ℚ → Tensor3 ℚ := fun _ d _ => d

/-- A trivial `nn.Linear` factory producing the 1×1 identity affine map,
used to instantiate the opaque initializer in concrete evaluations. -/
def mkLinearId : ℕ → ℕ → LinearLayer ℚ := fun _ _ => ⟨[[1]], [0]⟩

/-- A trivial positional-encoding generator (1×1 table of ones), used to
instantiate the opaque generator functions in concrete evaluations. -/
def genPEOnes : ℕ → ℕ → Tensor2 ℚ := fun _ _ => [[1]]

/-- Concrete rational model with empty stacks, 1×1 identity embedding and
output projection, and no positional table, for concrete evaluations. -/
def mQ : Transformer ℚ := ⟨[], [], ⟨[[1]], [0]⟩, ⟨[[1]], [0]⟩, Option.none⟩

/-- Concrete real model with empty stacks, 1×1 identity embedding and output
projection, and no positional table, for concrete evaluations. -/
def mR : Transformer ℝ := ⟨[], [], ⟨[[1]], [0]⟩, ⟨[[1]], [0]⟩, Option.none⟩

/-- The object `Transformer.mk?` builds from trivial factories with
`d_input = 2`, `d_model = 3`, `d_output = 4`, `q = v = h = 1`, `k = 5`,
`N = 2`, default `dropout` and `chunk_mode`, and `pe = "original"`. -/
def tOrig : Transformer ℚ :=
  ⟨(List.range 2).map (fun _ => mkEncoderId ⟨3, 1, 1, 1, 5, defaultDropout, defaultChunkMode⟩),
   (List.range 2).map (fun _ => mkDecoderId ⟨3, 1, 1, 1, 5, defaultDropout, defaultChunkMode⟩),
   mkLinearId 2 3, mkLinearId 3 4, some (genPEOnes 5 3)⟩

/-- The object `Transformer.mk?` builds from trivial factories with all
dimension arguments `1`, `N = 0`, default `dropout` and `chunk_mode`, and
`pe = None`. -/
def tNone : Transformer ℚ :=
  ⟨[], [], mkLinearId 1 1, mkLinearId 1 1, Option.none⟩

/-! ## Theorems -/

lemma foldl_eq_encoderStackRun (ls : List (Tensor3 R → Tensor3 R)) (t : Tensor3 R) :
    ls.foldl (fun acc layer => layer acc) t = encoderStackRun ls t := by
  induction ls generalizing t with
  | nil => rfl
  | cons l rest ih => simpa [encoderStackRun] using ih (l t)

lemma foldl_eq_decoderStackRun (ls : List (Tensor3 R → Tensor3 R → Tensor3 R))
    (d mem : Tensor3 R) :
    ls.foldl (fun dec layer => layer dec mem) d = decoderStackRun ls d mem := by
  induction ls generalizing d with
  | nil => rfl
  | cons l rest ih => simpa [decoderStackRun] using ih (l d mem)

lemma forward_pipeline (e : R → R) (m : Transformer R) (x : Tensor3 R) :
    m.forward e x =
      sigmoidMap e (m.linear.apply3
        (decoderStackRun m.layers_decoding
          (optAddPE m.PE (encoderStackRun m.layers_encoding
            (optAddPE m.PE (m.embedding.apply3 x))))
          (optAddPE m.PE (encoderStackRun m.layers_encoding
            (optAddPE m.PE (m.embedding.apply3 x)))))) := by
  cases hpe : m.PE with
  | none =>
    simp [Transformer.forward, optAddPE, hpe, foldl_eq_encoderStackRun,
      foldl_eq_decoderStackRun]
  | some tab =>
    simp [Transformer.forward, optAddPE, hpe, foldl_eq_encoderStackRun,
      foldl_eq_decoderStackRun]

/-- C1: `forward` equals the composed pipeline: embed the input, add the PE
table if one exists, run the encoder stack sequentially, add the PE table a
second time if one exists to obtain the memory `M`, then run the decoder
stack with the decoding state initialized to `M` and every decoder layer
receiving the same fixed `M` as its memory argument, and finally apply the
sigmoid to the output projection of the last decoding state. -/
theorem forward_eq_pipeline (e : R → R) (m : Transformer R) (x : Tensor3 R) :
    m.forward e x =
      sigmoidMap e (m.linear.apply3
        (decoderStackRun m.layers_decoding
          (optAddPE m.PE (encoderStackRun m.layers_encoding
            (optAddPE m.PE (m.embedding.apply3 x))))
          (optAddPE m.PE (encoderStackRun m.layers_encoding
            (optAddPE m.PE (m.embedding.apply3 x)))))) :=
  forward_pipeline e m x

/-- C7: the forward pass leaves the model state — all learned parameters and
the stored positional table — unchanged, and its only effect is the returned
tensor: the state-threaded body returns the object unmodified together with
exactly the value `forward` computes (the in-place additions only rebind the
transient activation created during the invocation). -/
theorem forward_frame (e : R → R) (m : Transformer R) (x : Tensor3 R) :
    (m.forwardSt e x).1 = m ∧ (m.forwardSt e x).2 = m.forward e x := by
  cases hpe : m.PE with
  | none => simp [Transformer.forwardSt, Transformer.forward, hpe]
  | some tab => simp [Transformer.forwardSt, Transformer.forward, hpe]

/-- C8: with the layers modelled as evaluation-mode functions (dropout
disabled), forward is a deterministic pure function of the model's
parameters and its input: equal models and equal inputs give identical
outputs across two invocations. -/
theorem forward_deterministic (e : R → R) (m1 m2 : Transformer R) (x1 x2 : Tensor3 R)
    (hm : m1 = m2) (hx : x1 = x2) : m1.forward e x1 = m2.forward e x2 := by
  rw [hm, hx]

theorem forward_deterministic_witness :
    mQ.forward (fun a => a) [[[1]]] = mQ.forward (fun a => a) [[[1]]] :=
  forward_deterministic (fun a => a) mQ mQ [[[1]]] [[[1]]] rfl rfl

lemma mem_zipWith {α β γ : Type} {f : α → β → γ} :
    ∀ {l1 : List α} {l2 : List β} {c : γ}, c ∈ List.zipWith f l1 l2 →
      ∃ a ∈ l1, ∃ b ∈ l2, c = f a b
  | [], _, _, hc => by simp at hc
  | _ :: _, [], _, hc => by simp at hc
  | a :: l1, b :: l2, c, hc => by
    rw [List.zipWith_cons_cons, List.mem_cons] at hc
    rcases hc with hc | hc
    · exact ⟨a, List.mem_cons_self a l1, b, List.mem_cons_self b l2, hc⟩
    · obtain ⟨a0, ha0, b0, hb0, rfl⟩ := mem_zipWith hc
      exact ⟨a0, List.mem_cons_of_mem a ha0, b0, List.mem_cons_of_mem b hb0, rfl⟩

lemma apply1_length (l : LinearLayer R) (x : Tensor1 R) (dout : ℕ)
    (hw : l.weight.length = dout) (hb : l.bias.length = dout) :
    (l.apply1 x).length = dout := by
  simp [LinearLayer.apply1, hw, hb]

lemma apply3_shape (l : LinearLayer R) (t : Tensor3 R) (a b c dout : ℕ)
    (hw : l.weight.length = dout) (hb : l.bias.length = dout)
    (ht : HasShape3 t a b c) : HasShape3 (l.apply3 t) a b dout := by
  obtain ⟨hlen, hmat⟩ := ht
  refine ⟨by simp [LinearLayer.apply3, hlen], ?_⟩
  intro mat hmem
  rw [LinearLayer.apply3, List.mem_map] at hmem
  obtain ⟨mat0, hmem0, rfl⟩ := hmem
  obtain ⟨hm0, _⟩ := hmat mat0 hmem0
  refine ⟨by simp [hm0], ?_⟩
  intro row hr
  rw [List.mem_map] at hr
  obtain ⟨row0, _, rfl⟩ := hr
  exact apply1_length l row0 dout hw hb

lemma addPE2_shape (mat pe : Tensor2 R) (b c : ℕ)
    (hm : HasShape2 mat b c) (hp : HasShape2 pe b c) :
    HasShape2 (addPE2 mat pe) b c := by
  obtain ⟨hm1, hm2⟩ := hm
  obtain ⟨hp1, hp2⟩ := hp
  refine ⟨by simp [addPE2, hm1, hp1], ?_⟩
  intro row hr
  obtain ⟨r0, hr0, p0, hp0, rfl⟩ := mem_zipWith hr
  simp [hm2 r0 hr0, hp2 p0 hp0]

lemma addPE3_shape (t : Tensor3 R) (pe : Tensor2 R) (a b c : ℕ)
    (ht : HasShape3 t a b c) (hp : HasShape2 pe b c) :
    HasShape3 (addPE3 t pe) a b c := by
  obtain ⟨hlen, hmat⟩ := ht
  refine ⟨by simp [addPE3, hlen], ?_⟩
  intro mat hmem
  rw [addPE3, List.mem_map] at hmem
  obtain ⟨mat0, hmem0, rfl⟩ := hmem
  exact addPE2_shape mat0 pe b c (hmat mat0 hmem0) hp

lemma optAddPE_shape (o : Option (Tensor2 R)) (t : Tensor3 R) (a b c : ℕ)
    (ht : HasShape3 t a b c) (ho : ∀ pe ∈ o, HasShape2 pe b c) :
    HasShape3 (optAddPE o t) a b c := by
  cases o with
  | none => exact ht
  | some tab => exact addPE3_shape t tab a b c ht (ho tab rfl)

lemma encoderStackRun_shape (ls : List (Tensor3 R → Tensor3 R)) (a b c : ℕ)
    (hls : ∀ l ∈ ls, ∀ t : Tensor3 R, HasShape3 t a b c → HasShape3 (l t) a b c)
    (t : Tensor3 R) (ht : HasShape3 t a b c) :
    HasShape3 (encoderStackRun ls t) a b c := by
  induction ls generalizing t with
  | nil => exact ht
  | cons l rest ih =>
    exact ih (fun g hg => hls g (List.mem_cons_of_mem l hg)) (l t)
      (hls l (List.mem_cons_self l rest) t ht)

lemma decoderStackRun_shape (ls : List (Tensor3 R → Tensor3 R → Tensor3 R))
    (a b c : ℕ) (mem : Tensor3 R)
    (hls : ∀ l ∈ ls, ∀ t u : Tensor3 R,
      HasShape3 t a b c → HasShape3 u a b c → HasShape3 (l t u) a b c)
    (hmem : HasShape3 mem a b c) (d : Tensor3 R) (hd : HasShape3 d a b c) :
    HasShape3 (decoderStackRun ls d mem) a b c := by
  induction ls generalizing d with
  | nil => exact hd
  | cons l rest ih =>
    exact ih (fun g hg => hls g (List.mem_cons_of_mem l hg)) (l d mem)
      (hls l (List.mem_cons_self l rest) d mem hd hmem)

lemma sigmoidMap_shape (e : R → R) (t : Tensor3 R) (a b c : ℕ)
    (ht : HasShape3 t a b c) : HasShape3 (sigmoidMap e t) a b c := by
  obtain ⟨hlen, hmat⟩ := ht
  refine ⟨by simp [sigmoidMap, hlen], ?_⟩
  intro mat hmem
  rw [sigmoidMap, List.mem_map] at hmem
  obtain ⟨mat0, hmem0, rfl⟩ := hmem
  obtain ⟨hm0, hrow0⟩ := hmat mat0 hmem0
  refine ⟨by simp [hm0], ?_⟩
  intro row hr
  rw [List.mem_map] at hr
  obtain ⟨row0, hr0, rfl⟩ := hr
  simp [hrow0 row0 hr0]

/-- C2: for every model whose embedding and output projection have `d_model`
and `d_output` output coordinates, whose positional table (if any) has shape
`(k, d_model)`, and under the hypothesis that every encoder layer is
shape-preserving on `(B, k, d_model)` tensors and every decoder layer maps
two `(B, k, d_model)` tensors to one, `forward` maps any input of shape
`(B, k, d_input)` to an output of shape `(B, k, d_output)`. -/
theorem forward_shape (e : R → R) (m : Transformer R)
    (B k d_input d_model d_output : ℕ)
    (hembw : m.embedding.weight.length = d_model)
    (hembb : m.embedding.bias.length = d_model)
    (hlinw : m.linear.weight.length = d_output)
    (hlinb : m.linear.bias.length = d_output)
    (hpe : ∀ pe ∈ m.PE, HasShape2 pe k d_model)
    (henc : ∀ l ∈ m.layers_encoding, ∀ t : Tensor3 R,
      HasShape3 t B k d_model → HasShape3 (l t) B k d_model)
    (hdec : ∀ l ∈ m.layers_decoding, ∀ t u : Tensor3 R,
      HasShape3 t B k d_model → HasShape3 u B k d_model → HasShape3 (l t u) B k d_model)
    (x : Tensor3 R) (hx : HasShape3 x B k d_input) :
    HasShape3 (m.forward e x) B k d_output := by
  have h0 : HasShape3 (m.embedding.apply3 x) B k d_model :=
    apply3_shape m.embedding x B k d_input d_model hembw hembb hx
  have h1 := optAddPE_shape m.PE _ B k d_model h0 hpe
  have h2 := encoderStackRun_shape m.layers_encoding B k d_model henc _ h1
  have h3 := optAddPE_shape m.PE _ B k d_model h2 hpe
  have h4 := decoderStackRun_shape m.layers_decoding B k d_model _ hdec h3 _ h3
  have h5 := apply3_shape m.linear _ B k d_model d_output hlinw hlinb h4
  have h6 := sigmoidMap_shape e _ B k d_output h5
  rw [forward_pipeline e m x]
  exact h6

theorem forward_shape_witness :
    HasShape3 (mQ.forward (fun a => a) [[[1]]]) 1 1 1 :=
  forward_shape (fun a => a) mQ 1 1 1 1 1 rfl rfl rfl rfl (by simp [mQ])
    (by simp [mQ]) (by simp [mQ]) [[[1]]] (by decide)

/-- C5 counterexample: the declared default of the constructor's
`chunk_mode` parameter is the boolean `True`, not the string value the claim
states. -/
theorem default_chunk_mode_not_chunked :
    defaultChunkMode ≠ PyVal.str "chunked" ∧ defaultChunkMode = PyVal.bool true := by
  decide

/-- C5 amended: the constructor's optional parameters default to
`dropout = 0.3`, `chunk_mode = True` (a boolean, not a string), and
`pe = None` (absent): a call omitting them equals the call passing these
values explicitly. -/
theorem mk_defaults (mkE : LayerArgs → Tensor3 R → Tensor3 R)
    (mkD : LayerArgs → Tensor3 R → Tensor3 R → Tensor3 R)
    (mkL : ℕ → ℕ → LinearLayer R) (gO gR : ℕ → ℕ → Tensor2 R)
    (di dm dq q v h k N : ℕ) :
    Transformer.mk? mkE mkD mkL gO gR di dm dq q v h k N =
      Transformer.mk? mkE mkD mkL gO gR di dm dq q v h k N
        (PyVal.float (3 / 10)) (PyVal.bool true) PyVal.none ∧
    defaultDropout = PyVal.float (3 / 10) ∧ defaultChunkMode = PyVal.bool true ∧
    defaultPe = PyVal.none :=
  ⟨rfl, rfl, rfl, rfl⟩

lemma sigmoid_mem_Ioo (x : ℝ) : 0 < sigmoid Real.exp x ∧ sigmoid Real.exp x < 1 := by
  have h := Real.exp_pos (-x)
  unfold sigmoid
  constructor
  · exact div_pos one_pos (by linarith)
  · rw [div_lt_one (by linarith)]
    linarith

/-- C3: over the reals with the genuine exponential, every element of the
tensor `forward` returns lies strictly within the open interval (0, 1): the
final squashing sigmoid applied after the output projection bounds each
output coordinate, for arbitrary input. -/
theorem forward_mem_Ioo (m : Transformer ℝ) (x : Tensor3 ℝ)
    (mat : Tensor2 ℝ) (hmat : mat ∈ m.forward Real.exp x)
    (row : Tensor1 ℝ) (hrow : row ∈ mat)
    (y : ℝ) (hy : y ∈ row) : 0 < y ∧ y < 1 := by
  rw [forward_pipeline Real.exp m x] at hmat
  rw [sigmoidMap, List.mem_map] at hmat
  obtain ⟨mat0, _, rfl⟩ := hmat
  rw [List.mem_map] at hrow
  obtain ⟨row0, _, rfl⟩ := hrow
  rw [List.mem_map] at hy
  obtain ⟨x0, _, rfl⟩ := hy
  exact sigmoid_mem_Ioo x0

theorem forward_mem_Ioo_witness :
    0 < sigmoid Real.exp 0 ∧ sigmoid Real.exp 0 < 1 := by
  have hfwd : mR.forward Real.exp [[[0]]] = [[[sigmoid Real.exp 0]]] := by
    simp [Transformer.forward, mR, LinearLayer.apply3, LinearLayer.apply1, dot,
      sigmoidMap]
  exact forward_mem_Ioo mR [[[0]]] [[sigmoid Real.exp 0]] (by rw [hfwd]; simp)
    [sigmoid Real.exp 0] (by simp) (sigmoid Real.exp 0) (by simp)

/-- C4: construction succeeds exactly when `pe` is `"original"`, `"regular"`
or `None`; any other value makes construction fail with a `NameError` whose
message names the offending value and the allowed set of names — so an
unrecognized `pe` never silently falls back to no positional encoding. -/
theorem mk_pe_validation (mkE : LayerArgs → Tensor3 R → Tensor3 R)
    (mkD : LayerArgs → Tensor3 R → Tensor3 R → Tensor3 R)
    (mkL : ℕ → ℕ → LinearLayer R) (gO gR : ℕ → ℕ → Tensor2 R)
    (di dm dq q v h k N : ℕ) (dropout chunk_mode pe : PyVal) :
    (peAccepted pe →
      ∃ t, Transformer.mk? mkE mkD mkL gO gR di dm dq q v h k N dropout chunk_mode pe =
        Except.ok t) ∧
    (¬ peAccepted pe →
      Transformer.mk? mkE mkD mkL gO gR di dm dq q v h k N dropout chunk_mode pe =
        Except.error
          ("PE \"" ++ pe.pyStr ++ "\" not understood. Must be one of original, regular or None.") ∧
      (pe.pyStr).toList <:+:
        ("PE \"" ++ pe.pyStr ++ "\" not understood. Must be one of original, regular or None.").toList ∧
      ("original, regular").toList <:+:
        ("PE \"" ++ pe.pyStr ++ "\" not understood. Must be one of original, regular or None.").toList) := by
  constructor
  · intro hacc
    rcases hacc with hv | hv | hv <;> subst hv <;> exact ⟨_, rfl⟩
  · intro hacc
    rw [peAccepted] at hacc
    push_neg at hacc
    obtain ⟨h1, h2, h3⟩ := hacc
    refine ⟨by simp [Transformer.mk?, h1, h2, h3], ?_, ?_⟩
    · have hsplit :
          ("PE \"" ++ pe.pyStr ++ "\" not understood. Must be one of original, regular or None.").toList =
            ("PE \"").toList ++ (pe.pyStr).toList ++
              ("\" not understood. Must be one of original, regular or None.").toList := rfl
      rw [hsplit]
      exact List.infix_append _ _ _
    · have hsplit :
          ("PE \"" ++ pe.pyStr ++ "\" not understood. Must be one of original, regular or None.").toList =
            (("PE \"").toList ++ (pe.pyStr).toList) ++
              ("\" not understood. Must be one of original, regular or None.").toList ++ ([] : List Char) := by
        simp [String.toList]
      have hin : ("original, regular").toList <:+:
          ("\" not understood. Must be one of original, regular or None.").toList := by decide
      exact hin.trans ⟨("PE \"").toList ++ (pe.pyStr).toList, [], hsplit.symm⟩

theorem mk_pe_validation_witness :
    (∃ t, Transformer.mk? mkEncoderId mkDecoderId mkLinearId genPEOnes genPEOnes
      1 1 1 1 1 1 1 1 defaultDropout defaultChunkMode (PyVal.str "original") = Except.ok t) ∧
    Transformer.mk? mkEncoderId mkDecoderId mkLinearId genPEOnes genPEOnes
      1 1 1 1 1 1 1 1 defaultDropout defaultChunkMode (PyVal.str "bogus") =
      Except.error
        ("PE \"" ++ (PyVal.str "bogus").pyStr ++
          "\" not understood. Must be one of original, regular or None.") :=
  ⟨(mk_pe_validation mkEncoderId mkDecoderId mkLinearId genPEOnes genPEOnes
      1 1 1 1 1 1 1 1 defaultDropout defaultChunkMode (PyVal.str "original")).1 (by decide),
   ((mk_pe_validation mkEncoderId mkDecoderId mkLinearId genPEOnes genPEOnes
      1 1 1 1 1 1 1 1 defaultDropout defaultChunkMode (PyVal.str "bogus")).2 (by decide)).1⟩

lemma forward_no_pe_eq (e : R → R) (m : Transformer R) (hpe : m.PE = Option.none)
    (x : Tensor3 R) : m.forward e x = m.forwardNoPE e x := by
  simp [Transformer.forward, Transformer.forwardNoPE, hpe]

/-- C6: a model constructed with `pe = None` stores no positional-encoding
table, and its forward pass performs neither positional-encoding addition:
its output equals the pipeline with both addition steps removed, for every
input. -/
theorem mk_none_no_pe (mkE : LayerArgs → Tensor3 R → Tensor3 R)
    (mkD : LayerArgs → Tensor3 R → Tensor3 R → Tensor3 R)
    (mkL : ℕ → ℕ → LinearLayer R) (gO gR : ℕ → ℕ → Tensor2 R)
    (di dm dq q v h k N : ℕ) (dropout chunk_mode : PyVal) (e : R → R)
    (t : Transformer R)
    (hok : Transformer.mk? mkE mkD mkL gO gR di dm dq q v h k N dropout chunk_mode PyVal.none =
      Except.ok t) :
    t.PE = Option.none ∧ ∀ x, t.forward e x = t.forwardNoPE e x := by
  have hok2 : Except.ok (ε := String)
      (⟨(List.range N).map (fun _ => mkE ⟨dm, q, v, h, k, dropout, chunk_mode⟩),
        (List.range N).map (fun _ => mkD ⟨dm, q, v, h, k, dropout, chunk_mode⟩),
        mkL di dm, mkL dm dq, Option.none⟩ : Transformer R) = Except.ok t := hok
  injection hok2 with hok3
  subst hok3
  exact ⟨rfl, fun x => forward_no_pe_eq e _ rfl x⟩

theorem mk_none_no_pe_witness :
    tNone.PE = Option.none ∧
    ∀ x, tNone.forward (fun a => a) x = tNone.forwardNoPE (fun a => a) x :=
  mk_none_no_pe mkEncoderId mkDecoderId mkLinearId genPEOnes genPEOnes
    1 1 1 1 1 1 1 0 defaultDropout defaultChunkMode (fun a => a) tNone rfl

/-- C9: construction with `N = 0` succeeds for every accepted `pe` and
produces empty encoder and decoder stacks that act as identities: the
forward pass is the sigmoid of the output projection of the embedded input
with the table added twice when a table exists, and with no addition when
none exists, with no encoder or decoder layer applied. -/
theorem mk_zero_layers (mkE : LayerArgs → Tensor3 R → Tensor3 R)
    (mkD : LayerArgs → Tensor3 R → Tensor3 R → Tensor3 R)
    (mkL : ℕ → ℕ → LinearLayer R) (gO gR : ℕ → ℕ → Tensor2 R)
    (di dm dq q v h k : ℕ) (dropout chunk_mode pe : PyVal) (e : R → R)
    (hacc : peAccepted pe) :
    ∃ t, Transformer.mk? mkE mkD mkL gO gR di dm dq q v h k 0 dropout chunk_mode pe =
        Except.ok t ∧
      t.layers_encoding = [] ∧ t.layers_decoding = [] ∧
      ∀ x, t.forward e x =
        sigmoidMap e (t.linear.apply3 (optAddPE t.PE (optAddPE t.PE (t.embedding.apply3 x)))) := by
  rcases hacc with hv | hv | hv <;> subst hv
  · exact ⟨_, rfl, rfl, rfl, fun x => by simp [Transformer.forward, optAddPE]⟩
  · exact ⟨_, rfl, rfl, rfl, fun x => by simp [Transformer.forward, optAddPE]⟩
  · exact ⟨_, rfl, rfl, rfl, fun x => by simp [Transformer.forward, optAddPE]⟩

theorem mk_zero_layers_witness :
    ∃ t, Transformer.mk? mkEncoderId mkDecoderId mkLinearId genPEOnes genPEOnes
        1 1 1 1 1 1 1 0 defaultDropout defaultChunkMode PyVal.none = Except.ok t ∧
      t.layers_encoding = [] ∧ t.layers_decoding = [] ∧
      ∀ x, t.forward (fun a => a) x =
        sigmoidMap (fun a => a)
          (t.linear.apply3 (optAddPE t.PE (optAddPE t.PE (t.embedding.apply3 x)))) :=
  mk_zero_layers mkEncoderId mkDecoderId mkLinearId genPEOnes genPEOnes
    1 1 1 1 1 1 1 defaultDropout defaultChunkMode PyVal.none (fun a => a) (by decide)

/-- C10: the constructor validates only `pe` — for every value of the
dimension parameters, `N`, `dropout` and `chunk_mode`, construction succeeds
if and only if `pe` is accepted — and it forwards `dropout` and `chunk_mode`
verbatim, inside the same argument tuple `(d_model, q, v, h, k, dropout,
chunk_mode)`, to each of the `N` Encoder and `N` Decoder layer
constructors, and the two `nn.Linear` modules get `(d_input, d_model)` and
`(d_model, d_output)`. -/
theorem mk_forwards_args (mkE : LayerArgs → Tensor3 R → Tensor3 R)
    (mkD : LayerArgs → Tensor3 R → Tensor3 R → Tensor3 R)
    (mkL : ℕ → ℕ → LinearLayer R) (gO gR : ℕ → ℕ → Tensor2 R)
    (di dm dq q v h k N : ℕ) (dropout chunk_mode pe : PyVal) :
    ((∃ t, Transformer.mk? mkE mkD mkL gO gR di dm dq q v h k N dropout chunk_mode pe =
        Except.ok t) ↔ peAccepted pe) ∧
    (∀ t, Transformer.mk? mkE mkD mkL gO gR di dm dq q v h k N dropout chunk_mode pe =
        Except.ok t →
      t.layers_encoding = List.replicate N (mkE ⟨dm, q, v, h, k, dropout, chunk_mode⟩) ∧
      t.layers_decoding = List.replicate N (mkD ⟨dm, q, v, h, k, dropout, chunk_mode⟩) ∧
      t.embedding = mkL di dm ∧ t.linear = mkL dm dq) := by
  have hrepl : ∀ {α : Type} (c : α), (List.range N).map (fun _ => c) = List.replicate N c := by
    intro α c
    simp
  constructor
  · constructor
    · rintro ⟨t, ht⟩
      by_contra hacc
      rw [peAccepted] at hacc
      push_neg at hacc
      obtain ⟨h1, h2, h3⟩ := hacc
      simp [Transformer.mk?, h1, h2, h3] at ht
    · intro hacc
      rcases hacc with hv | hv | hv <;> subst hv <;> exact ⟨_, rfl⟩
  · intro t ht
    by_cases h1 : pe = PyVal.str "original"
    · subst h1
      have ht2 : Except.ok (ε := String)
          (⟨(List.range N).map (fun _ => mkE ⟨dm, q, v, h, k, dropout, chunk_mode⟩),
            (List.range N).map (fun _ => mkD ⟨dm, q, v, h, k, dropout, chunk_mode⟩),
            mkL di dm, mkL dm dq, some (gO k dm)⟩ : Transformer R) = Except.ok t := ht
      injection ht2 with ht3
      subst ht3
      exact ⟨hrepl _, hrepl _, rfl, rfl⟩
    · by_cases h2 : pe = PyVal.str "regular"
      · subst h2
        have ht2 : Except.ok (ε := String)
            (⟨(List.range N).map (fun _ => mkE ⟨dm, q, v, h, k, dropout, chunk_mode⟩),
              (List.range N).map (fun _ => mkD ⟨dm, q, v, h, k, dropout, chunk_mode⟩),
              mkL di dm, mkL dm dq, some (gR k dm)⟩ : Transformer R) = Except.ok t := by
          rw [← ht]
          simp [Transformer.mk?, h1]
        injection ht2 with ht3
        subst ht3
        exact ⟨hrepl _, hrepl _, rfl, rfl⟩
      · by_cases h3 : pe = PyVal.none
        · subst h3
          have ht2 : Except.ok (ε := String)
              (⟨(List.range N).map (fun _ => mkE ⟨dm, q, v, h, k, dropout, chunk_mode⟩),
                (List.range N).map (fun _ => mkD ⟨dm, q, v, h, k, dropout, chunk_mode⟩),
                mkL di dm, mkL dm dq, Option.none⟩ : Transformer R) = Except.ok t := ht
          injection ht2 with ht3
          subst ht3
          exact ⟨hrepl _, hrepl _, rfl, rfl⟩
        · simp [Transformer.mk?, h1, h2, h3] at ht

theorem mk_forwards_args_witness :
    tOrig.layers_encoding =
      List.replicate 2 (mkEncoderId ⟨3, 1, 1, 1, 5, defaultDropout, defaultChunkMode⟩) ∧
    tOrig.layers_decoding =
      List.replicate 2 (mkDecoderId ⟨3, 1, 1, 1, 5, defaultDropout, defaultChunkMode⟩) :=
  ⟨((mk_forwards_args mkEncoderId mkDecoderId mkLinearId genPEOnes genPEOnes
      2 3 4 1 1 1 5 2 defaultDropout defaultChunkMode (PyVal.str "original")).2 tOrig rfl).1,
   (((mk_forwards_args mkEncoderId mkDecoderId mkLinearId genPEOnes genPEOnes
      2 3 4 1 1 1 5 2 defaultDropout defaultChunkMode (PyVal.str "original")).2 tOrig rfl).2).1⟩

end Tst
